import Mathlib

/-!
Shallow embedding of the prop-pricing engine of this repository.

Numeric values are modelled by `ℚ` (the Python code computes with floats;
the claims under study are algebraic, not about rounding error).  A Python
`None`/`NaN` value is modelled by `Option.none`.  Each definition below is
translated from the named Python function in the source tree.
-/

namespace PropModel

/-- Banker's rounding as performed by Python's built-in `round` (ties go to
the even integer); used wherever the source writes `int(round(x))`. -/
def pyRound (x : ℚ) : ℤ :=
  if x - ⌊x⌋ = 1/2 then (if ⌊x⌋ % 2 = 0 then ⌊x⌋ else ⌊x⌋ + 1) else round x

/-- `model/io.py::american_to_decimal`:
`1 + (100/abs(odds)) if odds < 0 else 1 + (odds/100)`. -/
def american_to_decimal (odds : ℚ) : ℚ :=
  if odds < 0 then 1 + 100 / |odds| else 1 + odds / 100

/-- `model/io.py::american_to_implied`: `1.0 / american_to_decimal(odds)`. -/
def american_to_implied (odds : ℚ) : ℚ :=
  1 / american_to_decimal odds

/-- `model/io.py::prob_to_american`: clamp p to `[1e-6, 1-1e-6]`, then
`round(-100*p/(1-p))` when `p ≥ 0.5` else `round(100*(1-p)/p)`. -/
def prob_to_american_io (p : ℚ) : ℤ :=
  let p := min (max p (1/1000000)) (1 - 1/1000000)
  if 1/2 ≤ p then pyRound (-100 * (p / (1 - p))) else pyRound (100 * ((1 - p) / p))

/-- `model/core.py::american_to_prob`: `None` input (Python `None`/`NaN`)
gives `None`; odds `0` gives `None`; positive odds give `100/(odds+100)`;
negative odds give `(-odds)/((-odds)+100)`. -/
def american_to_prob (odds : Option ℚ) : Option ℚ :=
  match odds with
  | none => none
  | some o =>
    if o = 0 then none
    else if 0 < o then some (100 / (o + 100))
    else some ((-o) / ((-o) + 100))

/-- `model/core.py::prob_to_american`: `None` for missing input or `p ≤ 0`
or `p ≥ 1`; otherwise `round(-100*p/(1-p))` when `p ≥ 0.5`, else
`round(100*(1-p)/p)`. -/
def prob_to_american (p : Option ℚ) : Option ℤ :=
  match p with
  | none => none
  | some p =>
    if p ≤ 0 ∨ 1 ≤ p then none
    else if 1/2 ≤ p then some (pyRound (-100 * (p / (1 - p))))
    else some (pyRound (100 * ((1 - p) / p)))

/-- The probability/price round trip of `model/core.py`:
`prob_to_american(american_to_prob(o))`. -/
def round_trip (o : ℚ) : Option ℤ :=
  prob_to_american (american_to_prob (some o))

/-- `model/io.py::devig_two_way`: renormalise a two-way probability pair,
`None` when the sum is non-positive. -/
def devig_two_way (p_over p_under : ℚ) : Option (ℚ × ℚ) :=
  let s := p_over + p_under
  if s ≤ 0 then none else some (p_over / s, p_under / s)

/-- `model/kelly.py::kelly_fraction`:
`b = odds/100` when positive else `100/|odds|`; `max(0, (b*p - (1-p))/b)`. -/
def kelly_fraction (p american_odds : ℚ) : ℚ :=
  let b := if 0 < american_odds then american_odds / 100 else 100 / |american_odds|
  let q := 1 - p
  max 0 ((b * p - q) / b)

/-- The capped Kelly stake of `model/core.py::run.eval_yardage`:
`kelly = kelly_fraction(...); kelly = min(kelly, kcap)`. -/
def capped_kelly (kcap p american_odds : ℚ) : ℚ :=
  min (kelly_fraction p american_odds) kcap

/-- The `volatility` section of the YAML configuration, as read by
`model/markets.py` and `model/features.py`. -/
structure VolCfg where
  wind_threshold_mph : ℚ
  wind_sd_widen : ℚ
  cold_threshold_f : ℚ
  cold_sd_widen : ℚ
  widen_sd_if_pressure_top10 : ℚ
  widen_sd_if_qb_lowtier : ℚ
deriving DecidableEq

/-- `model/markets.py::weather_penalty`: start from `widen = 1.0`;
multiply by `1 + wind_sd_widen` when wind is present and `≥` the wind
threshold; then multiply by `1 + cold_sd_widen` when temperature is
present and `≤` the cold threshold.  A missing (`None`/`NaN`) reading
leaves the factor untouched. -/
def weather_penalty (temp_f wind_mph : Option ℚ) (cfg : VolCfg) : ℚ :=
  let widen : ℚ := 1
  let widen := match wind_mph with
    | some w => if cfg.wind_threshold_mph ≤ w then widen * (1 + cfg.wind_sd_widen) else widen
    | none => widen
  match temp_f with
    | some t => if t ≤ cfg.cold_threshold_f then widen * (1 + cfg.cold_sd_widen) else widen
    | none => widen

/-- `model/markets.py::widen_for_pressure`:
`sd * (1 + (widen_sd_if_pressure_top10 if flagged else 0))`. -/
def widen_for_pressure (is_top10_pressure : Bool) (sd : ℚ) (cfg : VolCfg) : ℚ :=
  sd * (1 + (if is_top10_pressure then cfg.widen_sd_if_pressure_top10 else 0))

/-- `model/markets.py::widen_for_low_qb`:
`sd * (1 + (widen_sd_if_qb_lowtier if flagged else 0))`. -/
def widen_for_low_qb (low_tier_qb : Bool) (sd : ℚ) (cfg : VolCfg) : ℚ :=
  sd * (1 + (if low_tier_qb then cfg.widen_sd_if_qb_lowtier else 0))

/-- `model/markets.py::yardage_probs`, with the normal CDF `scipy.stats.norm.cdf`
taken as a parameter `Φ` (it is external library code):
`z = (line - mean)/max(sd, 1e-6); p_under = Φ(z); p_over = 1 - p_under`;
returns `(p_over, p_under)`. -/
def yardage_probs (Φ : ℚ → ℚ) (mean sd line : ℚ) : ℚ × ℚ :=
  let z := (line - mean) / max sd (1/1000000)
  let p_under := Φ z
  let p_over := 1 - p_under
  (p_over, p_under)

/-- Python's `needle in hay` on strings: some contiguous substring of `hay`
equals `needle`. -/
def strContains (hay needle : String) : Bool :=
  (List.range (hay.length + 1)).any (fun i => needle.data.isPrefixOf (hay.data.drop i))

/-- Python's `dict.get(key, 1.0)` on the team-multiplier maps of
`model/feeds.py::load_feed_mods`. -/
def dictGet (d : List (String × ℚ)) (k : String) : ℚ :=
  (d.lookup k).getD 1

/-- The feed modifiers produced by `model/feeds.py::load_feed_mods`:
three team-multiplier maps and two flag sets. -/
structure Mods where
  pace : List (String × ℚ)
  proe : List (String × ℚ)
  off_epa : List (String × ℚ)
  top10_pressure : List String
  low_tier_qb : List String
deriving DecidableEq

/-- One row as seen by `model/features.py::adjusted_mu_sd` after
`attach_context`: `mean`/`sd` may be missing (`NaN` ⇒ `none`);
`snap_adj`/`share_adj` have already been `fillna(1.0)`-defaulted;
`temp_f`/`wind_mph` are `none` when the weather merge left `NaN`. -/
structure FeatRow where
  team : String
  player : String
  market : String
  opp : String
  mean : Option ℚ
  sd : Option ℚ
  snap_adj : ℚ
  share_adj : ℚ
  temp_f : Option ℚ
  wind_mph : Option ℚ
deriving DecidableEq

/-- `model/features.py::adjusted_mu_sd`: `(None, None)` when mean or sd is
missing; otherwise multiply the mean by the three team factors (each
defaulting to `1.0`) and the snap/share adjustments, then widen the sd by
weather, pressure and quarterback-tier factors in that order.  The
quarterback flag is only consulted when `"passing"` occurs in the
lower-cased market name. -/
def adjusted_mu_sd (row : FeatRow) (mods : Mods) (cfg : VolCfg) : Option (ℚ × ℚ) :=
  match row.mean, row.sd with
  | some mu, some sd =>
    let t := row.team.toUpper
    let team_factor : ℚ := 1 * dictGet mods.pace t * dictGet mods.proe t * dictGet mods.off_epa t
    let mu := mu * (team_factor * row.snap_adj * row.share_adj)
    let wx_widen := weather_penalty row.temp_f row.wind_mph cfg
    let sd := sd * wx_widen
    let opp := row.opp.toUpper
    let sd := widen_for_pressure (mods.top10_pressure.contains opp) sd cfg
    let low_qb := if strContains row.market.toLower "passing"
      then mods.low_tier_qb.contains row.player.toUpper else false
    let sd := widen_for_low_qb low_qb sd cfg
    some (mu, sd)
  | _, _ => none

/-- One priced-opportunity row as consumed by
`model/parlays.py::build_parlays` (the columns that function reads). -/
structure Row where
  player : String
  market : String
  side : String
  line : ℚ
  book_odds_american : ℚ
  edge_pct : ℚ
  side_prob : ℚ
  decimal_odds : ℚ
deriving DecidableEq

/-- One entry of `cfg["parlays"]["buckets"]`. -/
structure Bucket where
  name : String
  min_edge_pct : ℚ
  max_legs : Nat
deriving DecidableEq

/-- The `parlays` section of the configuration. -/
structure ParlayCfg where
  correlation_penalty : ℚ
  buckets : List Bucket
deriving DecidableEq

/-- One output row of `build_parlays`.  The `legs` column (a formatted
string in the source) is modelled as the list of chosen rows; the sentinel
empty-bucket row carries `legs = []` mirroring `legs: ""`. -/
structure ParlayOut where
  bucket : String
  legs : List Row
  parlay_prob : ℚ
  decimal_odds : ℚ
  ev_per_unit : ℚ
deriving DecidableEq

/-- Pandas `Series.clip(0.001, 0.999)` on one value. -/
def clip (lo hi x : ℚ) : ℚ := min (max x lo) hi

/-- The edge threshold `build_parlays` actually applies:
`100*b["min_edge_pct"] if b["min_edge_pct"]<1 else b["min_edge_pct"]`. -/
def minEdgeApplied (b : Bucket) : ℚ :=
  if b.min_edge_pct < 1 then 100 * b.min_edge_pct else b.min_edge_pct

/-- The filter step of `build_parlays`:
`pred_df[pred_df["edge_pct"] >= min_edge]`. -/
def poolFilter (pred_df : List Row) (b : Bucket) : List Row :=
  pred_df.filter (fun r => decide (minEdgeApplied b ≤ r.edge_pct))

/-- Insert a row into a list sorted descending by `edge_pct`. -/
def insertEdgeDesc (r : Row) : List Row → List Row
  | [] => [r]
  | x :: xs => if x.edge_pct ≤ r.edge_pct then r :: x :: xs else x :: insertEdgeDesc r xs

/-- `sort_values("edge_pct", ascending=False)`: sort descending by
`edge_pct` (pandas' default quicksort is unstable, so the order among
equal keys is unspecified in the source; any descending sort is a
faithful model). -/
def sortEdgeDesc : List Row → List Row
  | [] => []
  | x :: xs => insertEdgeDesc x (sortEdgeDesc xs)

/-- The candidate pool of `build_parlays`: filter by the applied edge
threshold, sort descending by `edge_pct`, keep the top 40. -/
def bucketPool (pred_df : List Row) (b : Bucket) : List Row :=
  (sortEdgeDesc (poolFilter pred_df b)).take 40

/-- The body of the per-bucket loop of `model/parlays.py::build_parlays`:
empty pool ⇒ the sentinel row `(prob 0, odds 1, EV -1)`; otherwise take up
to `max_legs` legs, clip each `side_prob` into `[0.001, 0.999]`, multiply
by the correlation penalty, and combine by products. -/
def bucketOut (pen : ℚ) (pred_df : List Row) (b : Bucket) : ParlayOut :=
  let pool := bucketPool pred_df b
  if pool.isEmpty then
    { bucket := b.name, legs := [], parlay_prob := 0, decimal_odds := 1, ev_per_unit := -1 }
  else
    let legs := pool.take b.max_legs
    let probs := legs.map (fun r => clip (1/1000) (999/1000) r.side_prob * pen)
    let parlay_prob := probs.prod
    let dec_odds := (legs.map (fun r => r.decimal_odds)).prod
    { bucket := b.name, legs := legs, parlay_prob := parlay_prob,
      decimal_odds := dec_odds, ev_per_unit := parlay_prob * dec_odds - 1 }

/-- `model/parlays.py::build_parlays`: one output row per configured
bucket, in configuration order. -/
def build_parlays (pred_df : List Row) (cfg : ParlayCfg) : List ParlayOut :=
  cfg.buckets.map (bucketOut cfg.correlation_penalty pred_df)

/-- First leg of the two-leg parlay scenario (decimal odds 2.0,
probability 0.55). -/
def c3leg1 : Row :=
  { player := "P1", market := "receiving yards", side := "Over", line := 50,
    book_odds_american := 100, edge_pct := 5, side_prob := 11/20, decimal_odds := 2 }

/-- Second leg of the two-leg parlay scenario (decimal odds 1.8,
probability 0.5). -/
def c3leg2 : Row :=
  { player := "P2", market := "rushing yards", side := "Under", line := 40,
    book_odds_american := -125, edge_pct := 4, side_prob := 1/2, decimal_odds := 9/5 }

/-- Bucket taking both scenario legs. -/
def c3bucket : Bucket := { name := "two", min_edge_pct := 1, max_legs := 2 }

/-- Single row with recorded probability 0.6, used with penalty 2. -/
def c10row : Row :=
  { player := "P3", market := "receptions", side := "Over", line := 4,
    book_odds_american := 110, edge_pct := 5, side_prob := 3/5, decimal_odds := 21/10 }

/-- Single row with recorded probability exactly 1 (gets clamped). -/
def c10wrow : Row :=
  { player := "P4", market := "receptions", side := "Over", line := 4,
    book_odds_american := 110, edge_pct := 5, side_prob := 1, decimal_odds := 21/10 }

/-- One-leg bucket with threshold 1. -/
def c10bucket : Bucket := { name := "solo", min_edge_pct := 1, max_legs := 1 }

/-- The claim's wording of the wind step of the adjustment pipeline:
`1 + wind_widen` when a wind reading is present and at or above the
threshold, else 1. -/
def windFactor (wind_mph : Option ℚ) (cfg : VolCfg) : ℚ :=
  match wind_mph with
  | some w => if cfg.wind_threshold_mph ≤ w then 1 + cfg.wind_sd_widen else 1
  | none => 1

/-- The claim's wording of the cold step of the adjustment pipeline:
`1 + cold_widen` when a temperature reading is present and at or below the
threshold, else 1. -/
def coldFactor (temp_f : Option ℚ) (cfg : VolCfg) : ℚ :=
  match temp_f with
  | some t => if t ≤ cfg.cold_threshold_f then 1 + cfg.cold_sd_widen else 1
  | none => 1

end PropModel

namespace PropModel

/-- Fact helping below: `pyRound` moves a rational by at most `1/2`. -/
theorem abs_pyRound_sub_le (x : ℚ) : |(pyRound x : ℚ) - x| ≤ 1/2 := by
  unfold pyRound
  split_ifs with h1 h2
  · rw [abs_le]; constructor <;> linarith
  · rw [abs_le]; push_cast; constructor <;> linarith
  · rw [abs_sub_comm]; exact abs_sub_round x

/-- `pyRound` is the identity on integers. -/
theorem pyRound_intCast (n : ℤ) : pyRound ((n : ℚ)) = n := by
  unfold pyRound
  rw [Int.floor_intCast]
  rw [if_neg (by simp)]
  exact round_intCast n

/-- Evaluation of `american_to_prob` on a positive price. -/
theorem american_to_prob_of_pos (o : ℚ) (h : 0 < o) :
    american_to_prob (some o) = some (100 / (o + 100)) := by
  simp only [american_to_prob]
  rw [if_neg (ne_of_gt h), if_pos h]

/-- Evaluation of `american_to_prob` on a negative price. -/
theorem american_to_prob_of_neg (o : ℚ) (h : o < 0) :
    american_to_prob (some o) = some ((-o) / ((-o) + 100)) := by
  simp only [american_to_prob]
  rw [if_neg (ne_of_lt h), if_neg (not_lt.mpr h.le)]

/-- The sequential weather widener equals the product of the claim's wind
and cold factors. -/
theorem weather_penalty_eq (temp_f wind_mph : Option ℚ) (cfg : VolCfg) :
    weather_penalty temp_f wind_mph cfg
      = windFactor wind_mph cfg * coldFactor temp_f cfg := by
  unfold weather_penalty windFactor coldFactor
  cases wind_mph <;> cases temp_f <;> dsimp only <;> (try split_ifs) <;> ring

/-- C2: with mean and sd available, the pipeline returns exactly
mean × pace × play-rate × efficiency × snap × share and
sd × wind-factor × cold-factor × pressure-factor × qb-factor (the qb
factor applying only to a passing market with a low-tier player); with
mean or sd missing it returns the failure signal `none`. -/
theorem c2_adjusted_mu_sd_spec (row : FeatRow) (mods : Mods) (cfg : VolCfg) :
    (∀ m s, row.mean = some m → row.sd = some s →
      adjusted_mu_sd row mods cfg = some
        (m * dictGet mods.pace row.team.toUpper * dictGet mods.proe row.team.toUpper
           * dictGet mods.off_epa row.team.toUpper * row.snap_adj * row.share_adj,
         s * windFactor row.wind_mph cfg * coldFactor row.temp_f cfg
           * (if mods.top10_pressure.contains row.opp.toUpper
               then 1 + cfg.widen_sd_if_pressure_top10 else 1)
           * (if strContains row.market.toLower "passing"
                 ∧ mods.low_tier_qb.contains row.player.toUpper
               then 1 + cfg.widen_sd_if_qb_lowtier else 1))) ∧
    (row.mean = none ∨ row.sd = none → adjusted_mu_sd row mods cfg = none) := by
  constructor
  · intro m s hm hs
    simp only [adjusted_mu_sd]
    rw [hm, hs]
    dsimp only
    rw [weather_penalty_eq]
    unfold widen_for_pressure widen_for_low_qb
    simp only [Option.some.injEq, Prod.mk.injEq]
    constructor
    · ring
    · have hbool : (if strContains row.market.toLower "passing"
          then mods.low_tier_qb.contains row.player.toUpper else false)
          = (strContains row.market.toLower "passing"
              && mods.low_tier_qb.contains row.player.toUpper) := by
        cases hA : strContains row.market.toLower "passing" <;> simp
      rw [hbool]
      simp only [Bool.and_eq_true]
      split_ifs <;> ring
  · intro hcase
    simp only [adjusted_mu_sd]
    rcases hcase with h | h
    · rw [h]
    · rw [h]
      cases row.mean <;> rfl

/-- C2 (witness): a passing-market row with empty feed maps, wind 20 ≥ 15
and temperature 20 ≤ 32: mean `240·(9/10)·(11/10) = 237.6`, sd
`50·1.1·1.05 = 57.75`. -/
theorem c2_witness :
    adjusted_mu_sd
      { team := "BUF", player := "JA", market := "passing yards", opp := "NYJ",
        mean := some 240, sd := some 50, snap_adj := 9/10, share_adj := 11/10,
        temp_f := some 20, wind_mph := some 20 }
      { pace := [], proe := [], off_epa := [], top10_pressure := [], low_tier_qb := [] }
      { wind_threshold_mph := 15, wind_sd_widen := 1/10, cold_threshold_f := 32,
        cold_sd_widen := 1/20, widen_sd_if_pressure_top10 := 2/25,
        widen_sd_if_qb_lowtier := 3/25 } = some (1188/5, 231/4) := by
  have h := (c2_adjusted_mu_sd_spec
    { team := "BUF", player := "JA", market := "passing yards", opp := "NYJ",
      mean := some 240, sd := some 50, snap_adj := 9/10, share_adj := 11/10,
      temp_f := some 20, wind_mph := some 20 }
    { pace := [], proe := [], off_epa := [], top10_pressure := [], low_tier_qb := [] }
    { wind_threshold_mph := 15, wind_sd_widen := 1/10, cold_threshold_f := 32,
      cold_sd_widen := 1/20, widen_sd_if_pressure_top10 := 2/25,
      widen_sd_if_qb_lowtier := 3/25 }).1 240 50 rfl rfl
  rw [h]
  norm_num [dictGet, windFactor, coldFactor]

/-- C1 (counterexample): the claim says `american_to_probability` fails for
every odds strictly between -100 and 100, but `american_to_prob(50)`
returns the number `100/150 = 2/3` rather than failing. -/
theorem c1_counterexample :
    american_to_prob (some 50) = some (2/3) ∧ american_to_prob (some 50) ≠ none := by
  have h : american_to_prob (some 50) = some (2/3) := by
    simp only [american_to_prob]
    norm_num
  refine ⟨h, ?_⟩
  rw [h]
  simp

/-- C1 (amended): `american_to_prob` returns `100/(o+100)` for `o ≥ 100`
and `(-o)/((-o)+100)` for `o ≤ -100`, and it fails (returns `none`) exactly
for odds `0` and for a missing/non-finite input — odds strictly between
-100 and 100 other than 0 are not rejected. -/
theorem c1_american_to_prob_spec (o : ℚ) :
    (100 ≤ o → american_to_prob (some o) = some (100 / (o + 100))) ∧
    (o ≤ -100 → american_to_prob (some o) = some ((-o) / ((-o) + 100))) ∧
    (american_to_prob (some o) = none ↔ o = 0) ∧
    american_to_prob none = none := by
  refine ⟨?_, ?_, ?_, rfl⟩
  · intro h
    simp only [american_to_prob]
    rw [if_neg (show ¬o = 0 by intro h0; rw [h0] at h; norm_num at h),
      if_pos (by linarith)]
  · intro h
    simp only [american_to_prob]
    rw [if_neg (show ¬o = 0 by intro h0; rw [h0] at h; norm_num at h),
      if_neg (by push_neg; linarith)]
  · simp only [american_to_prob]
    split_ifs with h1 h2
    · simp [h1]
    · simp [h1]
    · simp [h1]

/-- C1 (witness): the amended statement at `o = 150`. -/
theorem c1_witness : american_to_prob (some 150) = some (2/5) := by
  have h := (c1_american_to_prob_spec 150).1 (by norm_num)
  rw [h]
  norm_num

/-- C5: the capped Kelly stake equals `min(cap, max(0, (b·p-(1-p))/b))`
with `b = price/100` for positive prices and `100/|price|` otherwise; it is
never negative, never exceeds a non-negative cap, and is 0 for a fair bet
(`p` equal to the implied probability of the price). -/
theorem c5_kelly_capped (p price cap : ℚ) (hp0 : 0 < p) (hp1 : p < 1)
    (hprice : price ≠ 0) (hcap : 0 ≤ cap) :
    capped_kelly cap p price
      = min cap (max 0 (((if 0 < price then price / 100 else 100 / |price|) * p - (1 - p))
          / (if 0 < price then price / 100 else 100 / |price|))) ∧
    0 ≤ capped_kelly cap p price ∧
    capped_kelly cap p price ≤ cap ∧
    (p = american_to_implied price → capped_kelly cap p price = 0) := by
  set b := if 0 < price then price / 100 else 100 / |price| with hb_def
  have hb : 0 < b := by
    rw [hb_def]
    split_ifs with h
    · positivity
    · have h1 : 0 < |price| := abs_pos.mpr hprice
      positivity
  have hkf : kelly_fraction p price = max 0 ((b * p - (1 - p)) / b) := rfl
  have heq : capped_kelly cap p price = min cap (max 0 ((b * p - (1 - p)) / b)) := by
    unfold capped_kelly
    rw [hkf, min_comm]
  refine ⟨heq, ?_, ?_, ?_⟩
  · rw [heq]
    exact le_min hcap (le_max_left 0 _)
  · rw [heq]
    exact min_le_left _ _
  · intro hfair
    have hdec : american_to_decimal price = 1 + b := by
      show _ = 1 + (if 0 < price then price / 100 else 100 / |price|)
      unfold american_to_decimal
      rcases lt_or_gt_of_ne hprice with h | h
      · rw [if_pos h, if_neg (not_lt.mpr h.le)]
      · rw [if_neg (not_lt.mpr h.le), if_pos h]
    have h1b : (0:ℚ) < 1 + b := by linarith
    have hp : p = 1 / (1 + b) := by
      rw [hfair]
      unfold american_to_implied
      rw [hdec]
    have hzero : b * p - (1 - p) = 0 := by
      rw [hp]
      field_simp
    rw [heq, hzero]
    simp only [zero_div, max_self]
    exact min_eq_right hcap

/-- C5 (witness): a fair bet at price -100 with `p = 1/2` and cap `1/20`
has Kelly stake 0. -/
theorem c5_witness : capped_kelly (1/20) (1/2) (-100) = 0 := by
  have h := c5_kelly_capped (1/2) (-100) (1/20)
    (by norm_num) (by norm_num) (by norm_num) (by norm_num)
  exact h.2.2.2 (by unfold american_to_implied american_to_decimal; norm_num)

/-- C7: `devig_two_way` renormalises by the sum when the sum is positive,
returns an absent result when the sum is non-positive, and maps an equal
pair of positive probabilities to `(1/2, 1/2)`. -/
theorem c7_devig_two_way_spec (p_a p_b : ℚ) :
    (0 < p_a + p_b → devig_two_way p_a p_b = some (p_a / (p_a + p_b), p_b / (p_a + p_b))) ∧
    (p_a + p_b ≤ 0 → devig_two_way p_a p_b = none) ∧
    (0 < p_a → p_b = p_a → devig_two_way p_a p_b = some (1/2, 1/2)) := by
  refine ⟨?_, ?_, ?_⟩
  · intro h
    unfold devig_two_way
    rw [if_neg (not_le.mpr h)]
  · intro h
    unfold devig_two_way
    rw [if_pos h]
  · intro hp he
    rw [he]
    unfold devig_two_way
    rw [if_neg (by push_neg; linarith)]
    have hhalf : p_a / (p_a + p_a) = 1/2 := by
      rw [div_eq_div_iff (by linarith) (by norm_num)]
      ring
    rw [hhalf]

/-- C8 (counterexample): at odds `+100` the round trip returns `-100`
(probability `1/2` falls into the favourite branch), which is 200 away
from the input — not within integer-rounding tolerance. -/
theorem c8_counterexample :
    round_trip 100 = some (-100) ∧ ¬(|(-100:ℚ) - 100| ≤ 1) := by
  constructor
  · unfold round_trip
    rw [american_to_prob_of_pos 100 (by norm_num)]
    simp only [prob_to_american]
    rw [if_neg (by norm_num), if_pos (by norm_num)]
    have harg : -100 * ((100 / (100 + 100) : ℚ) / (1 - 100 / (100 + 100)))
        = ((-100 : ℤ) : ℚ) := by norm_num
    rw [harg, pyRound_intCast]
  · norm_num

/-- C8 (amended): for `|o| ≥ 100` the implied probability lies strictly in
`(0,1)`; for every such `o` other than `+100` the round trip
`prob_to_american ∘ american_to_prob` recovers the price to within `1/2`
(exactly, for integer prices); at `o = +100` it returns `-100`, the same
even-money price on the opposite sign convention. -/
theorem c8_round_trip_amended (o : ℚ) (h : 100 ≤ o ∨ o ≤ -100) :
    (∃ p, american_to_prob (some o) = some p ∧ 0 < p ∧ p < 1) ∧
    (o ≠ 100 → ∃ z : ℤ, round_trip o = some z ∧ |(z : ℚ) - o| ≤ 1/2) := by
  rcases h with h | h
  · have hpos : (0:ℚ) < o + 100 := by linarith
    have hap : american_to_prob (some o) = some (100 / (o + 100)) :=
      american_to_prob_of_pos o (by linarith)
    have hp0 : 0 < 100 / (o + 100) := by positivity
    have hp1 : 100 / (o + 100) < 1 := by
      rw [div_lt_one hpos]; linarith
    refine ⟨⟨_, hap, hp0, hp1⟩, ?_⟩
    intro hne
    have ho : 100 < o := lt_of_le_of_ne h (Ne.symm hne)
    have hhalf : 100 / (o + 100) < 1/2 := by
      rw [div_lt_div_iff₀ hpos (by norm_num)]; linarith
    have harg : 100 * ((1 - 100 / (o + 100)) / (100 / (o + 100))) = o := by
      field_simp
    refine ⟨pyRound o, ?_, abs_pyRound_sub_le o⟩
    unfold round_trip
    rw [hap]
    simp only [prob_to_american]
    rw [if_neg (by push_neg; exact ⟨hp0, hp1⟩), if_neg (not_le.mpr hhalf), harg]
  · have hneg : o < 0 := by linarith
    have hpos : (0:ℚ) < -o + 100 := by linarith
    have hap : american_to_prob (some o) = some ((-o) / ((-o) + 100)) :=
      american_to_prob_of_neg o hneg
    have hp0 : 0 < (-o) / ((-o) + 100) := div_pos (by linarith) hpos
    have hp1 : (-o) / ((-o) + 100) < 1 := by
      rw [div_lt_one hpos]; linarith
    refine ⟨⟨_, hap, hp0, hp1⟩, ?_⟩
    intro _
    have hhalf : 1/2 ≤ (-o) / ((-o) + 100) := by
      rw [div_le_div_iff₀ (by norm_num) hpos]; linarith
    have harg : -100 * (((-o) / ((-o) + 100)) / (1 - (-o) / ((-o) + 100))) = o := by
      have hne : (-o) + 100 ≠ 0 := ne_of_gt hpos
      field_simp
      ring
    refine ⟨pyRound o, ?_, abs_pyRound_sub_le o⟩
    unfold round_trip
    rw [hap]
    simp only [prob_to_american]
    rw [if_neg (by push_neg; exact ⟨hp0, hp1⟩), if_pos hhalf, harg]

/-- C8 (witness): the amended statement at `o = -110`. -/
theorem c8_witness :
    ((-110:ℚ) ≤ -100) ∧
    ((∃ p, american_to_prob (some (-110)) = some p ∧ 0 < p ∧ p < 1) ∧
      ((-110:ℚ) ≠ 100 →
        ∃ z : ℤ, round_trip (-110) = some z ∧ |(z : ℚ) - (-110)| ≤ 1/2)) :=
  ⟨by norm_num, c8_round_trip_amended (-110) (Or.inr (by norm_num))⟩

/-- C7 (witness): `devig_two_way (3/5) (3/5) = (1/2, 1/2)`. -/
theorem c7_witness : devig_two_way (3/5) (3/5) = some (1/2, 1/2) :=
  (c7_devig_two_way_spec (3/5) (3/5)).2.2 (by norm_num) rfl

/-- C6: for any CDF function `Φ` with range in `[0,1]` (as `norm.cdf` has),
the pricer returns `p_under = Φ` of the standardised line and
`p_over = 1 - p_under`, so the two probabilities sum to 1 and both lie in
`[0,1]`. -/
theorem c6_yardage_probs_spec (Φ : ℚ → ℚ) (mean sd line : ℚ)
    (hΦ : ∀ z, 0 ≤ Φ z ∧ Φ z ≤ 1) :
    (yardage_probs Φ mean sd line).2 = Φ ((line - mean) / max sd (1/1000000)) ∧
    (yardage_probs Φ mean sd line).1 = 1 - (yardage_probs Φ mean sd line).2 ∧
    (yardage_probs Φ mean sd line).1 + (yardage_probs Φ mean sd line).2 = 1 ∧
    (0 ≤ (yardage_probs Φ mean sd line).1 ∧ (yardage_probs Φ mean sd line).1 ≤ 1) ∧
    (0 ≤ (yardage_probs Φ mean sd line).2 ∧ (yardage_probs Φ mean sd line).2 ≤ 1) := by
  obtain ⟨h0, h1⟩ := hΦ ((line - mean) / max sd (1/1000000))
  unfold yardage_probs
  refine ⟨rfl, rfl, by ring, ⟨by simpa using h1, by simpa using h0⟩, h0, h1⟩

/-- C6 (witness): the statement at the constant CDF `1/2`,
`mean = 60`, `sd = 20`, `line = 111/2`. -/
theorem c6_witness :
    (yardage_probs (fun _ => 1/2) 60 20 (111/2)).2
        = (fun _ : ℚ => (1:ℚ)/2) (((111:ℚ)/2 - 60) / max 20 (1/1000000)) ∧
    (yardage_probs (fun _ => 1/2) 60 20 (111/2)).1
        = 1 - (yardage_probs (fun _ => 1/2) 60 20 (111/2)).2 ∧
    (yardage_probs (fun _ => 1/2) 60 20 (111/2)).1
        + (yardage_probs (fun _ => 1/2) 60 20 (111/2)).2 = 1 ∧
    (0 ≤ (yardage_probs (fun _ => 1/2) 60 20 (111/2)).1 ∧
      (yardage_probs (fun _ => 1/2) 60 20 (111/2)).1 ≤ 1) ∧
    (0 ≤ (yardage_probs (fun _ => 1/2) 60 20 (111/2)).2 ∧
      (yardage_probs (fun _ => 1/2) 60 20 (111/2)).2 ≤ 1) :=
  c6_yardage_probs_spec (fun _ => 1/2) 60 20 (111/2) (fun _ => by norm_num)

/-- C9: a priced row passes the parlay edge filter exactly when its
`edge_pct` is at least `100·min_edge_pct` for a configured `min_edge_pct`
below 1, and at least the unchanged `min_edge_pct` otherwise — fractional
configuration values are silently rescaled to percent units. -/
theorem c9_min_edge_rescaled (pred_df : List Row) (b : Bucket) (r : Row) :
    r ∈ poolFilter pred_df b ↔
      r ∈ pred_df ∧
        (if b.min_edge_pct < 1 then 100 * b.min_edge_pct else b.min_edge_pct)
          ≤ r.edge_pct := by
  simp only [poolFilter, minEdgeApplied, List.mem_filter, decide_eq_true_eq]

/-- Unfolding of `bucketOut` on a non-empty pool. -/
theorem bucketOut_of_nonempty (pen : ℚ) (pred_df : List Row) (b : Bucket)
    (h : bucketPool pred_df b ≠ []) :
    bucketOut pen pred_df b =
      { bucket := b.name,
        legs := (bucketPool pred_df b).take b.max_legs,
        parlay_prob := (((bucketPool pred_df b).take b.max_legs).map
          (fun r => clip (1/1000) (999/1000) r.side_prob * pen)).prod,
        decimal_odds := (((bucketPool pred_df b).take b.max_legs).map
          (fun r => r.decimal_odds)).prod,
        ev_per_unit := (((bucketPool pred_df b).take b.max_legs).map
            (fun r => clip (1/1000) (999/1000) r.side_prob * pen)).prod *
          (((bucketPool pred_df b).take b.max_legs).map
            (fun r => r.decimal_odds)).prod - 1 } := by
  unfold bucketOut
  rw [if_neg (by simpa [List.isEmpty_iff] using h)]

/-- A non-empty product of rationals each strictly between 0 and 1 lies
strictly between 0 and 1. -/
theorem prod_pos_lt_one (l : List ℚ) (hne : l ≠ [])
    (h : ∀ x ∈ l, 0 < x ∧ x < 1) : 0 < l.prod ∧ l.prod < 1 := by
  induction l with
  | nil => exact absurd rfl hne
  | cons a t ih =>
    obtain ⟨ha0, ha1⟩ := h a (List.mem_cons_self a t)
    rw [List.prod_cons]
    cases t with
    | nil => simpa using ⟨ha0, ha1⟩
    | cons c u =>
      obtain ⟨ht0, ht1⟩ := ih (List.cons_ne_nil c u)
        (fun x hx => h x (List.mem_cons_of_mem a hx))
      refine ⟨mul_pos ha0 ht0, ?_⟩
      calc a * (c :: u).prod < a * 1 := by
              exact mul_lt_mul_of_pos_left ht1 ha0
        _ = a := mul_one a
        _ < 1 := ha1

/-- C4: the parlay builder emits exactly one result row per configured
bucket, and a bucket in which no priced row reaches the applied minimum
edge threshold receives the fully-populated sentinel row with probability
0, decimal odds 1 and EV -1 — never a missing row. -/
theorem c4_empty_bucket_sentinel (pred_df : List Row) (cfg : ParlayCfg) :
    (build_parlays pred_df cfg).length = cfg.buckets.length ∧
    ∀ b ∈ cfg.buckets, (∀ r ∈ pred_df, r.edge_pct < minEdgeApplied b) →
      ({ bucket := b.name, legs := [], parlay_prob := 0, decimal_odds := 1,
         ev_per_unit := -1 } : ParlayOut) ∈ build_parlays pred_df cfg := by
  constructor
  · unfold build_parlays
    exact List.length_map _ _
  · intro b hb hlow
    have hfilter : poolFilter pred_df b = [] := by
      unfold poolFilter
      rw [List.filter_eq_nil_iff]
      intro r hr
      simp only [decide_eq_true_eq]
      exact not_le.mpr (hlow r hr)
    have hpool : bucketPool pred_df b = [] := by
      unfold bucketPool
      rw [hfilter]
      rfl
    have hout : bucketOut cfg.correlation_penalty pred_df b
        = { bucket := b.name, legs := [], parlay_prob := 0, decimal_odds := 1,
            ev_per_unit := -1 } := by
      unfold bucketOut
      rw [hpool]
      rfl
    unfold build_parlays
    rw [← hout]
    exact List.mem_map_of_mem _ hb

/-- Evaluation of the candidate pool on the scenario rows. -/
theorem c3pool_eval : bucketPool [c3leg1, c3leg2] c3bucket = [c3leg1, c3leg2] := by
  have hfilter : poolFilter [c3leg1, c3leg2] c3bucket = [c3leg1, c3leg2] := by
    unfold poolFilter
    rw [List.filter_eq_self]
    intro r hr
    rcases List.mem_cons.mp hr with h | h
    · subst h
      norm_num [minEdgeApplied, c3bucket, c3leg1]
    · rcases List.mem_singleton.mp h with h
      subst h
      norm_num [minEdgeApplied, c3bucket, c3leg2]
  have hsort : sortEdgeDesc [c3leg1, c3leg2] = [c3leg1, c3leg2] := by
    show insertEdgeDesc c3leg1 (insertEdgeDesc c3leg2 []) = [c3leg1, c3leg2]
    show insertEdgeDesc c3leg1 [c3leg2] = [c3leg1, c3leg2]
    unfold insertEdgeDesc
    rw [if_pos (by norm_num [c3leg1, c3leg2])]
  unfold bucketPool
  rw [hfilter, hsort]
  rfl

/-- C3 (counterexample): on the spec's two-leg scenario (decimal odds 2.0
and 1.8, probabilities 0.55 and 0.5, penalty 0.95) the code's combined
probability is `0.55·0.95 · 0.5·0.95 = 0.2481875`, not the 0.2484 stated
by the claim. -/
theorem c3_counterexample :
    (bucketOut (19/20) [c3leg1, c3leg2] c3bucket).parlay_prob = 3971/16000 ∧
    (3971/16000 : ℚ) ≠ 2484/10000 := by
  constructor
  · rw [bucketOut_of_nonempty (19/20) [c3leg1, c3leg2] c3bucket
      (by rw [c3pool_eval]; simp)]
    rw [c3pool_eval]
    norm_num [c3bucket, c3leg1, c3leg2, clip]
  · norm_num

/-- C3 (amended): for every non-empty bucket the combined probability is
the product over the chosen legs of (probability clamped to
`[0.001, 0.999]` × correlation penalty), the combined decimal odds are the
product of the legs' decimal odds, and EV per unit is
`prob·odds - 1`; on the two-leg scenario this gives probability
`0.2481875`, decimal odds `3.6` and EV `-0.106525`. -/
theorem c3_parlay_combination (pen : ℚ) (pred_df : List Row) (b : Bucket)
    (hne : bucketPool pred_df b ≠ []) :
    (bucketOut pen pred_df b).legs = (bucketPool pred_df b).take b.max_legs ∧
    (bucketOut pen pred_df b).parlay_prob
      = ((bucketOut pen pred_df b).legs.map
          (fun r => clip (1/1000) (999/1000) r.side_prob * pen)).prod ∧
    (bucketOut pen pred_df b).decimal_odds
      = ((bucketOut pen pred_df b).legs.map (fun r => r.decimal_odds)).prod ∧
    (bucketOut pen pred_df b).ev_per_unit
      = (bucketOut pen pred_df b).parlay_prob
          * (bucketOut pen pred_df b).decimal_odds - 1 := by
  rw [bucketOut_of_nonempty pen pred_df b hne]
  exact ⟨rfl, rfl, rfl, rfl⟩

/-- C3 (witness): the amended statement evaluated on the scenario bucket:
probability `3971/16000 = 0.2481875`, decimal odds `18/5 = 3.6`,
EV `-4261/40000 = -0.106525`. -/
theorem c3_witness :
    (bucketOut (19/20) [c3leg1, c3leg2] c3bucket).parlay_prob = 3971/16000 ∧
    (bucketOut (19/20) [c3leg1, c3leg2] c3bucket).decimal_odds = 18/5 ∧
    (bucketOut (19/20) [c3leg1, c3leg2] c3bucket).ev_per_unit = -(4261/40000) := by
  have h := c3_parlay_combination (19/20) [c3leg1, c3leg2] c3bucket
    (by rw [c3pool_eval]; simp)
  have hlegs : (bucketOut (19/20) [c3leg1, c3leg2] c3bucket).legs
      = [c3leg1, c3leg2] := by
    rw [h.1, c3pool_eval]
    rfl
  have hprob : (bucketOut (19/20) [c3leg1, c3leg2] c3bucket).parlay_prob
      = 3971/16000 := by
    rw [h.2.1, hlegs]
    norm_num [c3leg1, c3leg2, clip]
  have hodds : (bucketOut (19/20) [c3leg1, c3leg2] c3bucket).decimal_odds
      = 18/5 := by
    rw [h.2.2.1, hlegs]
    norm_num [c3leg1, c3leg2]
  refine ⟨hprob, hodds, ?_⟩
  rw [h.2.2.2, hprob, hodds]
  norm_num

/-- Pool evaluation for the penalty-2 scenario. -/
theorem c10pool_eval : bucketPool [c10row] c10bucket = [c10row] := by
  have hfilter : poolFilter [c10row] c10bucket = [c10row] := by
    unfold poolFilter
    rw [List.filter_eq_self]
    intro r hr
    rcases List.mem_singleton.mp hr with h
    subst h
    norm_num [minEdgeApplied, c10bucket, c10row]
  unfold bucketPool
  rw [hfilter]
  rfl

/-- Pool evaluation for the clamped-probability witness scenario. -/
theorem c10wpool_eval : bucketPool [c10wrow] c10bucket = [c10wrow] := by
  have hfilter : poolFilter [c10wrow] c10bucket = [c10wrow] := by
    unfold poolFilter
    rw [List.filter_eq_self]
    intro r hr
    rcases List.mem_singleton.mp hr with h
    subst h
    norm_num [minEdgeApplied, c10bucket, c10wrow]
  unfold bucketPool
  rw [hfilter]
  rfl

/-- C10 (counterexample): the claim only assumes `pen > 0`, but with
penalty 2 and one leg of probability 0.6 the combined probability is
`0.6·2 = 1.2`, not strictly less than 1. -/
theorem c10_counterexample :
    (0:ℚ) < 2 ∧
    (bucketOut 2 [c10row] c10bucket).parlay_prob = 6/5 ∧
    ¬((bucketOut 2 [c10row] c10bucket).parlay_prob < 1) := by
  have hp : (bucketOut 2 [c10row] c10bucket).parlay_prob = 6/5 := by
    rw [bucketOut_of_nonempty 2 [c10row] c10bucket (by rw [c10pool_eval]; simp)]
    rw [c10pool_eval]
    norm_num [c10bucket, c10row, clip]
  exact ⟨by norm_num, hp, by rw [hp]; norm_num⟩

/-- C10 (amended): for a correlation penalty `0 < pen ≤ 1` and a non-empty
set of chosen legs, each leg's probability is clamped into
`[0.001, 0.999]` before the penalty is applied, so every per-leg factor
lies in `[0.001·pen, 0.999·pen]` and the combined probability is strictly
positive and strictly below 1 — even when a recorded probability is 0 or
1. -/
theorem c10_clamped_parlay_bounds (pen : ℚ) (pred_df : List Row) (b : Bucket)
    (hpen0 : 0 < pen) (hpen1 : pen ≤ 1)
    (hlegs : (bucketPool pred_df b).take b.max_legs ≠ []) :
    (∀ r ∈ (bucketPool pred_df b).take b.max_legs,
      1/1000 * pen ≤ clip (1/1000) (999/1000) r.side_prob * pen ∧
      clip (1/1000) (999/1000) r.side_prob * pen ≤ 999/1000 * pen) ∧
    0 < (bucketOut pen pred_df b).parlay_prob ∧
    (bucketOut pen pred_df b).parlay_prob < 1 := by
  have hpool : bucketPool pred_df b ≠ [] := fun h0 =>
    hlegs (by rw [h0, List.take_nil])
  have hclip : ∀ r ∈ (bucketPool pred_df b).take b.max_legs,
      1/1000 * pen ≤ clip (1/1000) (999/1000) r.side_prob * pen ∧
      clip (1/1000) (999/1000) r.side_prob * pen ≤ 999/1000 * pen := by
    intro r hr
    have hlo : (1:ℚ)/1000 ≤ clip (1/1000) (999/1000) r.side_prob := by
      unfold clip
      exact le_min (le_max_right _ _) (by norm_num)
    have hhi : clip (1/1000) (999/1000) r.side_prob ≤ 999/1000 := by
      unfold clip
      exact min_le_right _ _
    exact ⟨mul_le_mul_of_nonneg_right hlo hpen0.le,
      mul_le_mul_of_nonneg_right hhi hpen0.le⟩
  have hmap : (((bucketPool pred_df b).take b.max_legs).map
      (fun r => clip (1/1000) (999/1000) r.side_prob * pen)) ≠ [] := by
    intro h0
    exact hlegs (List.map_eq_nil_iff.mp h0)
  have hall : ∀ x ∈ (((bucketPool pred_df b).take b.max_legs).map
      (fun r => clip (1/1000) (999/1000) r.side_prob * pen)), 0 < x ∧ x < 1 := by
    intro x hx
    obtain ⟨r, hr, rfl⟩ := List.mem_map.mp hx
    obtain ⟨h1, h2⟩ := hclip r hr
    constructor
    · calc (0:ℚ) < 1/1000 * pen := by positivity
        _ ≤ _ := h1
    · calc clip (1/1000) (999/1000) r.side_prob * pen
          ≤ 999/1000 * pen := h2
        _ ≤ 999/1000 * 1 := mul_le_mul_of_nonneg_left hpen1 (by norm_num)
        _ < 1 := by norm_num
  have hbounds : 0 < ((((bucketPool pred_df b).take b.max_legs).map
        (fun r => clip (1/1000) (999/1000) r.side_prob * pen)).prod) ∧
      ((((bucketPool pred_df b).take b.max_legs).map
        (fun r => clip (1/1000) (999/1000) r.side_prob * pen)).prod) < 1 :=
    prod_pos_lt_one _ hmap hall
  refine ⟨hclip, ?_, ?_⟩
  · rw [bucketOut_of_nonempty pen pred_df b hpool]
    exact hbounds.1
  · rw [bucketOut_of_nonempty pen pred_df b hpool]
    exact hbounds.2

/-- C10 (witness): penalty `0.95`, one leg with recorded probability 1 —
the combined probability is strictly between 0 and 1. -/
theorem c10_witness :
    0 < (bucketOut (19/20) [c10wrow] c10bucket).parlay_prob ∧
    (bucketOut (19/20) [c10wrow] c10bucket).parlay_prob < 1 := by
  have h := c10_clamped_parlay_bounds (19/20) [c10wrow] c10bucket
    (by norm_num) (by norm_num)
    (by rw [c10wpool_eval,
          show ([c10wrow] : List Row).take c10bucket.max_legs = [c10wrow] from rfl]
        simp)
  exact ⟨h.2.1, h.2.2⟩

/-- C4 (witness): with one row of edge 1 and a bucket demanding edge 50,
the builder emits the sentinel row. -/
theorem c4_witness :
    (build_parlays
        [{ player := "A", market := "m", side := "Over", line := 50,
           book_odds_american := -110, edge_pct := 1, side_prob := 11/20,
           decimal_odds := 2 }]
        { correlation_penalty := 19/20,
          buckets := [{ name := "longshot", min_edge_pct := 50, max_legs := 3 }] }).length
      = 1 ∧
    ({ bucket := "longshot", legs := [], parlay_prob := 0, decimal_odds := 1,
       ev_per_unit := -1 } : ParlayOut) ∈
      build_parlays
        [{ player := "A", market := "m", side := "Over", line := 50,
           book_odds_american := -110, edge_pct := 1, side_prob := 11/20,
           decimal_odds := 2 }]
        { correlation_penalty := 19/20,
          buckets := [{ name := "longshot", min_edge_pct := 50, max_legs := 3 }] } := by
  have h := c4_empty_bucket_sentinel
    [{ player := "A", market := "m", side := "Over", line := 50,
       book_odds_american := -110, edge_pct := 1, side_prob := 11/20,
       decimal_odds := 2 }]
    { correlation_penalty := 19/20,
      buckets := [{ name := "longshot", min_edge_pct := 50, max_legs := 3 }] }
  refine ⟨h.1, h.2 { name := "longshot", min_edge_pct := 50, max_legs := 3 }
    (by simp) ?_⟩
  intro r hr
  simp only [List.mem_singleton] at hr
  subst hr
  norm_num [minEdgeApplied]

end PropModel
